import Mathlib

/-!
Verification of the GND RLE/back-reference decoder (tools/gndToBmp.py).

The decoder walks a compressed byte stream, classifying each command byte
into one of six opcode families (literal, short/long repeat, copy-2,
copy-3, long copy), reading payload bytes either from the stream or from a
4096-byte history window, and accumulating the decoded output.

The embedding below mirrors the Python source line by line: handlers take
the command byte, the full stream, the current position and the history
buffer, and return either a decode error (a raised exception in Python) or
the new position, the payload produced, and the updated history.  The
history deque with maxlen 4096 is modelled as a list whose front is
dropped whenever an extend overflows the window.  Python negative indexing
is modelled by pyGet; an out-of-range access is an IndexError.
-/

namespace GndDecode

/-- window size of the history deque (`WIN = 4096` in the source). -/
def WIN : Nat := 4096

def SHORT_REPEAT_LITERAL_BIAS : Nat := 3

def LONG_REPEAT_LITERAL_BIAS : Nat := 36

def COPY_2_BIAS : Nat := 2

def COPY_3_BIAS : Nat := 3

/-- decode errors: a raised ValueError in the copy opcodes (distance larger
than the history buffer), or an IndexError from an out-of-range read. -/
inductive DecodeErr
  | outOfHistory (dist hlen : Nat)
  | indexError
deriving DecidableEq, Repr

/-- trace entry kinds recorded by the decode loop: terminator, unknown
byte, or an applied opcode. -/
inductive Tag
  | term
  | unk
  | op
deriving DecidableEq, Repr

/-- Python sequence indexing: a negative index counts from the end of the
list; an index out of range on either side is an IndexError (none). -/
def pyGet (l : List Nat) (k : Int) : Option Nat :=
  if k < 0 then
    if 0 ≤ (l.length : Int) + k then l[((l.length : Int) + k).toNat]?
    else none
  else l[k.toNat]?

/-- model of `hist.extend(dat)` on a deque with `maxlen = WIN`: append and
drop the oldest bytes beyond the window. -/
def histExtend (hist dat : List Nat) : List Nat :=
  let h := hist ++ dat
  h.drop (h.length - WIN)

/-- model of the generator `bytes(hist[-dist + i] for i in range(...))`,
reading bytes at indices i, i+1, ..., starting at index i with k bytes
still to produce; any out-of-range read is an IndexError. -/
def copyBytes (hist : List Nat) (dist : Nat) : Nat → Nat → Option (List Nat)
  | _, 0 => some []
  | i, k+1 =>
    match pyGet hist ((i : Int) - (dist : Int)), copyBytes hist dist (i+1) k with
    | some b, some rest => some (b :: rest)
    | _, _ => none

/-- payload of a copy opcode: `bytes(hist[-dist + i] for i in range(n))`,
computed from the single pre-operation history snapshot. -/
def copyPayload (hist : List Nat) (dist n : Nat) : Option (List Nat) :=
  copyBytes hist dist 0 n

/-- result of one opcode handler: either a raised error, or the new stream
position, the payload produced, and the updated history buffer. -/
abbrev OpResult := Except DecodeErr (Nat × List Nat × List Nat)

/-- `op_literal`: n = cmd raw bytes copied from the stream right after the
command byte (a Python slice, which silently truncates at end of input). -/
def op_literal (cmd : Nat) (src : List Nat) (pos : Nat) (hist : List Nat) :
    OpResult :=
  let n := cmd
  let dat := (src.drop (pos+1)).take n
  .ok (pos+1+n, dat, histExtend hist dat)

/-- `op_short_repeat_literal`: (cmd AND 0x3F) + 3 copies of the byte
following the command byte. -/
def op_short_repeat_literal (cmd : Nat) (src : List Nat) (pos : Nat)
    (hist : List Nat) : OpResult :=
  match src[pos+1]? with
  | none => .error .indexError
  | some val =>
    let n := (cmd &&& 0x3F) + SHORT_REPEAT_LITERAL_BIAS
    let dat := List.replicate n val
    .ok (pos+2, dat, histExtend hist dat)

/-- `op_copy2`: 2 bytes read from history at distance (cmd AND 0x1F) + 2;
raises ValueError when the history buffer is shorter than the distance. -/
def op_copy2 (cmd : Nat) (src : List Nat) (pos : Nat) (hist : List Nat) :
    OpResult :=
  let dist := (cmd &&& 0x1F) + COPY_2_BIAS
  if hist.length < dist then .error (.outOfHistory dist hist.length)
  else
    match copyPayload hist dist 2 with
    | none => .error .indexError
    | some payload => .ok (pos+1, payload, histExtend hist payload)

/-- `op_long_repeat_literal`: ((cmd AND 0x1F) shl 8) + byte1 + 36 copies of
byte2. -/
def op_long_repeat_literal (cmd : Nat) (src : List Nat) (pos : Nat)
    (hist : List Nat) : OpResult :=
  match src[pos+1]? with
  | none => .error .indexError
  | some b1 =>
    match src[pos+2]? with
    | none => .error .indexError
    | some val =>
      let n := ((cmd &&& 0x1F) <<< 8) + b1 + LONG_REPEAT_LITERAL_BIAS
      let dat := List.replicate n val
      .ok (pos+3, dat, histExtend hist dat)

/-- `op_copy3`: 3 bytes read from history at distance (cmd AND 0x1F) + 3;
raises ValueError when the history buffer is shorter than the distance. -/
def op_copy3 (cmd : Nat) (src : List Nat) (pos : Nat) (hist : List Nat) :
    OpResult :=
  let dist := (cmd &&& 0x1F) + COPY_3_BIAS
  if hist.length < dist then .error (.outOfHistory dist hist.length)
  else
    match copyPayload hist dist 3 with
    | none => .error .indexError
    | some payload => .ok (pos+1, payload, histExtend hist payload)

/-- group field of a long-copy command byte: (cmd shr 4) - 0xC. -/
def longGroup (cmd : Nat) : Nat := (cmd >>> 4) - 0xC

/-- copy length of a long-copy command byte:
4 * group + 4 + ((cmd shr 2) AND 0x3). -/
def longLength (cmd : Nat) : Nat :=
  4 * longGroup cmd + 4 + ((cmd >>> 2) &&& 0x3)

/-- offset field of a long-copy opcode: ((cmd AND 0x3) shl 8) OR byte1. -/
def longOffset (cmd lo : Nat) : Nat := ((cmd &&& 0x3) <<< 8) ||| lo

/-- `long_op_copy`: length bytes read from history at distance
offset + length; raises ValueError when the history buffer is shorter
than the distance. -/
def long_op_copy (cmd : Nat) (src : List Nat) (pos : Nat) (hist : List Nat) :
    OpResult :=
  let length := longLength cmd
  let bias := length
  match src[pos+1]? with
  | none => .error .indexError
  | some lo =>
    let dist := longOffset cmd lo + bias
    if hist.length < dist then .error (.outOfHistory dist hist.length)
    else
      match copyPayload hist dist length with
      | none => .error .indexError
      | some payload => .ok (pos+2, payload, histExtend hist payload)

/-- the HANDLERS dispatch table: first predicate in range order that
matches the command byte selects the handler; none matches an unassigned
byte. -/
def applyHandler (c : Nat) (src : List Nat) (pos : Nat) (hist : List Nat) :
    Option OpResult :=
  if 0x01 ≤ c ∧ c ≤ 0x1F then some (op_literal c src pos hist)
  else if 0x40 ≤ c ∧ c ≤ 0x5F then some (op_short_repeat_literal c src pos hist)
  else if 0x60 ≤ c ∧ c ≤ 0x7F then some (op_long_repeat_literal c src pos hist)
  else if 0x80 ≤ c ∧ c ≤ 0x9F then some (op_copy2 c src pos hist)
  else if 0xA0 ≤ c ∧ c ≤ 0xBF then some (op_copy3 c src pos hist)
  else if 0xC0 ≤ c ∧ c ≤ 0xFF then some (long_op_copy c src pos hist)
  else none

/-- Python truthiness test `budget and value >= budget`: a budget of None
or 0 is falsy and never triggers a stop. -/
def budgetReached (budget : Option Nat) (v : Nat) : Bool :=
  match budget with
  | none => false
  | some n => decide (n ≠ 0) && decide (n ≤ v)

/-- the decode while-loop, with explicit fuel; returns none only when the
fuel runs out while the loop would still continue.  Mirrors the source:
terminator check first, then the two budget checks, then handler dispatch,
with unmatched bytes recorded and skipped. -/
def decodeLoop (stream : List Nat) (stopPix stopSrc : Option Nat) :
    Nat → Nat → List Nat → List Nat → List (Nat × Tag) →
    Option (Except DecodeErr (List Nat × List (Nat × Tag)))
  | 0, pos, out, _, trace =>
    if pos < stream.length then none
    else some (.ok (out, trace.reverse))
  | fuel+1, pos, out, hist, trace =>
    match stream[pos]? with
    | none => some (.ok (out, trace.reverse))
    | some c =>
      if c = 0 then some (.ok (out, ((pos, Tag.term) :: trace).reverse))
      else if budgetReached stopSrc pos then some (.ok (out, trace.reverse))
      else if budgetReached stopPix out.length then some (.ok (out, trace.reverse))
      else
        match applyHandler c stream pos hist with
        | some (.error e) => some (.error e)
        | some (.ok (nxt, payload, hist2)) =>
          decodeLoop stream stopPix stopSrc fuel nxt (out ++ payload) hist2
            ((pos, Tag.op) :: trace)
        | none =>
          decodeLoop stream stopPix stopSrc fuel (pos+1) out hist
            ((pos, Tag.unk) :: trace)

/-- initial history: `deque([0]*WIN, maxlen=WIN)`, 4096 zero bytes. -/
def initHist : List Nat := List.replicate WIN 0

/-- the `decode` entry point: position 0, empty output, zero-filled
history; fuel `stream.length` (shown sufficient separately). -/
def decode (stream : List Nat) (stopPix stopSrc : Option Nat) :
    Option (Except DecodeErr (List Nat × List (Nat × Tag))) :=
  decodeLoop stream stopPix stopSrc stream.length 0 [] initHist []

/-- reference semantics of a copy opcode as the specification words it:
the payload is produced byte-by-byte, each byte read from history at the
current distance from the end and pushed into history before the next
byte is read, so later bytes of the same opcode can observe earlier
ones.  Stated with the same Python indexing and deque-extend model as the
implementation, so the two can be compared. -/
def specByteAtATimeCopy (hist : List Nat) (dist : Nat) :
    Nat → Option (List Nat)
  | 0 => some []
  | k+1 =>
    match pyGet hist (0 - (dist : Int)) with
    | none => none
    | some b =>
      match specByteAtATimeCopy (histExtend hist [b]) dist k with
      | none => none
      | some rest => some (b :: rest)

section BasicLemmas

theorem initHist_length : initHist.length = WIN := by
  simp [initHist]

theorem initHist_get_eq (i : Nat) (h : i < WIN) : initHist[i]? = some 0 := by
  rw [initHist, List.getElem?_replicate]
  simp [h]

theorem histExtend_length (hist dat : List Nat) :
    (histExtend hist dat).length = min (hist.length + dat.length) WIN := by
  simp [histExtend]
  omega

theorem histExtend_length_full (hist dat : List Nat) (h : hist.length = WIN) :
    (histExtend hist dat).length = WIN := by
  rw [histExtend_length, h]
  omega

theorem histExtend_le_WIN (hist dat : List Nat) :
    (histExtend hist dat).length ≤ WIN := by
  rw [histExtend_length]
  omega

theorem pyGet_sub (l : List Nat) (a b : Nat) (h1 : a < b) (h2 : b ≤ l.length) :
    pyGet l ((a : Int) - (b : Int)) = some (l.getD (l.length + a - b) 0) := by
  have hneg : (a : Int) - (b : Int) < 0 := by omega
  have hge : (0 : Int) ≤ (l.length : Int) + ((a : Int) - (b : Int)) := by omega
  have hidx : ((l.length : Int) + ((a : Int) - (b : Int))).toNat =
      l.length + a - b := by omega
  have hlt : l.length + a - b < l.length := by omega
  rw [pyGet, if_pos hneg, if_pos hge, hidx,
    List.getD_eq_getElem?_getD, List.getElem?_eq_getElem hlt]
  rfl

theorem histExtend_push_getD (hist : List Nat) (b : Nat) (dist t : Nat)
    (hW : hist.length ≤ WIN) (hd : dist ≤ hist.length) (ht : t + 1 < dist) :
    (histExtend hist [b]).getD ((histExtend hist [b]).length + t - dist) 0 =
      hist.getD (hist.length + (t + 1) - dist) 0 := by
  have hlen : (histExtend hist [b]).length = min (hist.length + 1) WIN :=
    histExtend_length hist [b]
  have hidx2 : hist.length + (t + 1) - dist < hist.length := by omega
  rw [List.getD_eq_getElem?_getD, List.getD_eq_getElem?_getD]
  have hdrop : histExtend hist [b] =
      (hist ++ [b]).drop (hist.length + 1 - WIN) := by
    simp [histExtend]
  rw [hdrop, List.getElem?_drop, List.getElem?_append_left (by simp; omega)]
  have hdl : (List.drop (hist.length + 1 - WIN) (hist ++ [b])).length =
      hist.length + 1 - (hist.length + 1 - WIN) := by simp
  have hix : hist.length + 1 - WIN +
      ((List.drop (hist.length + 1 - WIN) (hist ++ [b])).length + t - dist) =
      hist.length + (t + 1) - dist := by
    rw [hdl]; omega
  rw [hix]

end BasicLemmas

section CopyLemmas

theorem copyBytes_formula (hist : List Nat) (dist : Nat) :
    ∀ k j, j + k ≤ dist → dist ≤ hist.length →
    copyBytes hist dist j k =
      some ((List.range k).map fun t =>
        hist.getD (hist.length + (j + t) - dist) 0) := by
  intro k
  induction k with
  | zero => intro j _ _; simp [copyBytes]
  | succ k ih =>
    intro j hjk hd
    have h1 : j < dist := by omega
    simp only [copyBytes]
    rw [pyGet_sub hist j dist h1 hd, ih (j+1) (by omega) hd]
    simp only [List.range_succ_eq_map, List.map_cons, List.map_map]
    refine congrArg some (congrArg₂ List.cons (by simp) ?_)
    refine List.map_eq_map_iff.mpr fun t _ => ?_
    simp only [Function.comp]
    congr 1
    omega

theorem specByteAtATime_formula (dist : Nat) :
    ∀ (k : Nat) (hist : List Nat), k ≤ dist → 1 ≤ dist →
      dist ≤ hist.length → hist.length ≤ WIN →
    specByteAtATimeCopy hist dist k =
      some ((List.range k).map fun t =>
        hist.getD (hist.length + t - dist) 0) := by
  intro k
  induction k with
  | zero => intro hist _ _ _ _; simp [specByteAtATimeCopy]
  | succ k ih =>
    intro hist hk h1 hd hW
    have hb := pyGet_sub hist 0 dist h1 hd
    have hz : ((0 : Nat) : Int) - (dist : Int) = 0 - (dist : Int) := by norm_num
    rw [hz] at hb
    simp only [specByteAtATimeCopy]
    simp only [hb]
    have hlen2 : (histExtend hist [hist.getD (hist.length + 0 - dist) 0]).length =
        min (hist.length + 1) WIN := histExtend_length hist _
    simp only [ih (histExtend hist [hist.getD (hist.length + 0 - dist) 0])
      (by omega) h1 (by rw [hlen2]; omega) (by rw [hlen2]; omega)]
    simp only [List.range_succ_eq_map, List.map_cons, List.map_map]
    refine congrArg some (congrArg₂ List.cons rfl ?_)
    refine List.map_eq_map_iff.mpr fun t ht => ?_
    simp only [Function.comp]
    have ht2 : t < k := List.mem_range.mp ht
    rw [histExtend_push_getD hist _ dist t hW hd (by omega)]

theorem copy_batch_eq_spec (hist : List Nat) (dist n : Nat) (hn : n ≤ dist)
    (hd : dist ≤ hist.length) (hW : hist.length ≤ WIN) :
    copyPayload hist dist n = specByteAtATimeCopy hist dist n := by
  cases n with
  | zero => rfl
  | succ n =>
    rw [copyPayload, copyBytes_formula hist dist (n+1) 0 (by omega) hd,
      specByteAtATime_formula dist (n+1) hist hn (by omega) hd hW]
    simp

end CopyLemmas

section HandlerLemmas

theorem copyPayload_eq_some (hist : List Nat) (dist n : Nat) (hn : n ≤ dist)
    (hd : dist ≤ hist.length) :
    copyPayload hist dist n =
      some ((List.range n).map fun t =>
        hist.getD (hist.length + t - dist) 0) := by
  rw [copyPayload, copyBytes_formula hist dist n 0 (by omega) hd]
  simp

theorem copy2_dist_le (c : Nat) : (c &&& 0x1F) + COPY_2_BIAS ≤ 33 := by
  have h := Nat.and_le_right (n := c) (m := 0x1F)
  unfold COPY_2_BIAS
  omega

theorem copy3_dist_le (c : Nat) : (c &&& 0x1F) + COPY_3_BIAS ≤ 34 := by
  have h := Nat.and_le_right (n := c) (m := 0x1F)
  unfold COPY_3_BIAS
  omega

theorem longLength_le (c : Nat) (hc : c < 256) : longLength c ≤ 19 := by
  have h4 : c >>> 4 ≤ 15 := by
    rw [Nat.shiftRight_eq_div_pow]
    norm_num
    omega
  have h2 : (c >>> 2) &&& 0x3 ≤ 3 := Nat.and_le_right
  simp only [longLength, longGroup]
  omega

theorem longLength_ge (c : Nat) : 4 ≤ longLength c := by
  simp only [longLength, longGroup]
  omega

theorem longOffset_le (c lo : Nat) (hlo : lo < 256) : longOffset c lo ≤ 1023 := by
  have h3 : c &&& 0x3 ≤ 3 := Nat.and_le_right
  have hsh : (c &&& 0x3) <<< 8 < 1024 := by
    rw [Nat.shiftLeft_eq]
    norm_num
    omega
  have hp : (1024 : Nat) = 2 ^ 10 := by norm_num
  have := Nat.or_lt_two_pow (hp ▸ hsh) (show lo < 2 ^ 10 by omega)
  unfold longOffset
  omega

theorem op_copy2_full (c : Nat) (src : List Nat) (pos : Nat)
    (hist : List Nat) (hh : WIN ≤ hist.length) :
    op_copy2 c src pos hist =
      .ok (pos + 1,
        (List.range 2).map (fun t =>
          hist.getD (hist.length + t - ((c &&& 0x1F) + COPY_2_BIAS)) 0),
        histExtend hist ((List.range 2).map (fun t =>
          hist.getD (hist.length + t - ((c &&& 0x1F) + COPY_2_BIAS)) 0))) := by
  have hd := copy2_dist_le c
  have hd2 : (c &&& 0x1F) + COPY_2_BIAS ≤ hist.length := by
    simp only [WIN] at hh
    omega
  rw [op_copy2, if_neg (by omega),
    copyPayload_eq_some hist _ 2 (by unfold COPY_2_BIAS; omega) hd2]

theorem op_copy3_full (c : Nat) (src : List Nat) (pos : Nat)
    (hist : List Nat) (hh : WIN ≤ hist.length) :
    op_copy3 c src pos hist =
      .ok (pos + 1,
        (List.range 3).map (fun t =>
          hist.getD (hist.length + t - ((c &&& 0x1F) + COPY_3_BIAS)) 0),
        histExtend hist ((List.range 3).map (fun t =>
          hist.getD (hist.length + t - ((c &&& 0x1F) + COPY_3_BIAS)) 0))) := by
  have hd := copy3_dist_le c
  have hd2 : (c &&& 0x1F) + COPY_3_BIAS ≤ hist.length := by
    simp only [WIN] at hh
    omega
  rw [op_copy3, if_neg (by omega),
    copyPayload_eq_some hist _ 3 (by unfold COPY_3_BIAS; omega) hd2]

theorem long_op_copy_full (c : Nat) (src : List Nat) (pos : Nat)
    (hist : List Nat) (lo : Nat) (hc : c < 256) (hlo : lo < 256)
    (hget : src[pos + 1]? = some lo) (hh : WIN ≤ hist.length) :
    long_op_copy c src pos hist =
      .ok (pos + 2,
        (List.range (longLength c)).map (fun t =>
          hist.getD (hist.length + t - (longOffset c lo + longLength c)) 0),
        histExtend hist ((List.range (longLength c)).map (fun t =>
          hist.getD (hist.length + t - (longOffset c lo + longLength c)) 0))) := by
  have h1 := longLength_le c hc
  have h2 := longOffset_le c lo hlo
  have hd2 : longOffset c lo + longLength c ≤ hist.length := by
    simp only [WIN] at hh
    omega
  rw [long_op_copy]
  simp only [hget]
  rw [if_neg (by omega),
    copyPayload_eq_some hist _ (longLength c) (by omega) hd2]

end HandlerLemmas

section DriverLemmas

theorem op_literal_eq (c : Nat) (src : List Nat) (pos : Nat) (hist : List Nat) :
    op_literal c src pos hist =
      .ok (pos + 1 + c, (src.drop (pos+1)).take c,
        histExtend hist ((src.drop (pos+1)).take c)) := rfl

theorem op_short_cases (c : Nat) (src : List Nat) (pos : Nat) (hist : List Nat) :
    (src[pos+1]? = none ∧
      op_short_repeat_literal c src pos hist = .error .indexError) ∨
    (∃ val, src[pos+1]? = some val ∧
      op_short_repeat_literal c src pos hist =
        .ok (pos+2,
          List.replicate ((c &&& 0x3F) + SHORT_REPEAT_LITERAL_BIAS) val,
          histExtend hist
            (List.replicate ((c &&& 0x3F) + SHORT_REPEAT_LITERAL_BIAS) val))) := by
  cases hg : src[pos+1]? with
  | none => exact Or.inl ⟨rfl, by simp [op_short_repeat_literal, hg]⟩
  | some val =>
    exact Or.inr ⟨val, rfl, by simp [op_short_repeat_literal, hg]⟩

theorem op_long_repeat_cases (c : Nat) (src : List Nat) (pos : Nat)
    (hist : List Nat) :
    op_long_repeat_literal c src pos hist = .error .indexError ∨
    (∃ b1 val, src[pos+1]? = some b1 ∧ src[pos+2]? = some val ∧
      op_long_repeat_literal c src pos hist =
        .ok (pos+3,
          List.replicate (((c &&& 0x1F) <<< 8) + b1 + LONG_REPEAT_LITERAL_BIAS) val,
          histExtend hist
            (List.replicate (((c &&& 0x1F) <<< 8) + b1 +
              LONG_REPEAT_LITERAL_BIAS) val))) := by
  cases hg1 : src[pos+1]? with
  | none => exact Or.inl (by simp [op_long_repeat_literal, hg1])
  | some b1 =>
    cases hg2 : src[pos+2]? with
    | none => exact Or.inl (by simp [op_long_repeat_literal, hg1, hg2])
    | some val =>
      exact Or.inr ⟨b1, val, rfl, rfl,
        by simp [op_long_repeat_literal, hg1, hg2]⟩

theorem op_copy2_cases (c : Nat) (src : List Nat) (pos : Nat) (hist : List Nat) :
    (∃ d, op_copy2 c src pos hist = .error (.outOfHistory d hist.length)) ∨
    op_copy2 c src pos hist = .error .indexError ∨
    (∃ p, op_copy2 c src pos hist = .ok (pos+1, p, histExtend hist p)) := by
  simp only [op_copy2]
  split
  · exact Or.inl ⟨_, rfl⟩
  · split
    · exact Or.inr (Or.inl rfl)
    · exact Or.inr (Or.inr ⟨_, rfl⟩)

theorem op_copy3_cases (c : Nat) (src : List Nat) (pos : Nat) (hist : List Nat) :
    (∃ d, op_copy3 c src pos hist = .error (.outOfHistory d hist.length)) ∨
    op_copy3 c src pos hist = .error .indexError ∨
    (∃ p, op_copy3 c src pos hist = .ok (pos+1, p, histExtend hist p)) := by
  simp only [op_copy3]
  split
  · exact Or.inl ⟨_, rfl⟩
  · split
    · exact Or.inr (Or.inl rfl)
    · exact Or.inr (Or.inr ⟨_, rfl⟩)

theorem long_op_copy_cases (c : Nat) (src : List Nat) (pos : Nat)
    (hist : List Nat) :
    long_op_copy c src pos hist = .error .indexError ∨
    (∃ d, long_op_copy c src pos hist = .error (.outOfHistory d hist.length)) ∨
    (∃ p, long_op_copy c src pos hist = .ok (pos+2, p, histExtend hist p)) := by
  cases hg : src[pos+1]? with
  | none => exact Or.inl (by simp [long_op_copy, hg])
  | some lo =>
    simp only [long_op_copy, hg]
    split
    · exact Or.inr (Or.inl ⟨_, rfl⟩)
    · split
      · exact Or.inl rfl
      · exact Or.inr (Or.inr ⟨_, rfl⟩)

theorem applyHandler_ok_shape (c : Nat) (src : List Nat) (pos : Nat)
    (hist : List Nat) (nxt : Nat) (p hist2 : List Nat)
    (h : applyHandler c src pos hist = some (.ok (nxt, p, hist2))) :
    pos < nxt ∧ (hist.length = WIN → hist2.length = WIN) := by
  unfold applyHandler at h
  split_ifs at h with h1 h2 h3 h4 h5 h6
  · rw [op_literal_eq] at h
    simp only [Option.some.injEq, Except.ok.injEq, Prod.mk.injEq] at h
    refine ⟨by omega, fun hw => ?_⟩
    rw [← h.2.2]
    exact histExtend_length_full _ _ hw
  · rcases op_short_cases c src pos hist with ⟨_, he⟩ | ⟨val, _, he⟩ <;>
      rw [he] at h
    · simp at h
    · simp only [Option.some.injEq, Except.ok.injEq, Prod.mk.injEq] at h
      refine ⟨by omega, fun hw => ?_⟩
      rw [← h.2.2]
      exact histExtend_length_full _ _ hw
  · rcases op_long_repeat_cases c src pos hist with he | ⟨b1, val, _, _, he⟩ <;>
      rw [he] at h
    · simp at h
    · simp only [Option.some.injEq, Except.ok.injEq, Prod.mk.injEq] at h
      refine ⟨by omega, fun hw => ?_⟩
      rw [← h.2.2]
      exact histExtend_length_full _ _ hw
  · rcases op_copy2_cases c src pos hist with ⟨d, he⟩ | he | ⟨q, he⟩ <;>
      rw [he] at h
    · simp at h
    · simp at h
    · simp only [Option.some.injEq, Except.ok.injEq, Prod.mk.injEq] at h
      refine ⟨by omega, fun hw => ?_⟩
      rw [← h.2.2]
      exact histExtend_length_full _ _ hw
  · rcases op_copy3_cases c src pos hist with ⟨d, he⟩ | he | ⟨q, he⟩ <;>
      rw [he] at h
    · simp at h
    · simp at h
    · simp only [Option.some.injEq, Except.ok.injEq, Prod.mk.injEq] at h
      refine ⟨by omega, fun hw => ?_⟩
      rw [← h.2.2]
      exact histExtend_length_full _ _ hw
  · rcases long_op_copy_cases c src pos hist with he | ⟨d, he⟩ | ⟨q, he⟩ <;>
      rw [he] at h
    · simp at h
    · simp at h
    · simp only [Option.some.injEq, Except.ok.injEq, Prod.mk.injEq] at h
      refine ⟨by omega, fun hw => ?_⟩
      rw [← h.2.2]
      exact histExtend_length_full _ _ hw

theorem applyHandler_no_ooh (c : Nat) (src : List Nat) (pos : Nat)
    (hist : List Nat) (hh : hist.length = WIN) (hsrc : ∀ b ∈ src, b < 256)
    (hc : c < 256) (d hl : Nat) :
    applyHandler c src pos hist ≠ some (.error (.outOfHistory d hl)) := by
  intro h
  unfold applyHandler at h
  split_ifs at h with h1 h2 h3 h4 h5 h6
  · rw [op_literal_eq] at h
    simp at h
  · rcases op_short_cases c src pos hist with ⟨_, he⟩ | ⟨val, _, he⟩ <;>
      rw [he] at h <;> simp at h
  · rcases op_long_repeat_cases c src pos hist with he | ⟨b1, val, _, _, he⟩ <;>
      rw [he] at h <;> simp at h
  · rw [op_copy2_full c src pos hist (le_of_eq hh.symm)] at h
    simp at h
  · rw [op_copy3_full c src pos hist (le_of_eq hh.symm)] at h
    simp at h
  · rcases hg : src[pos + 1]? with _ | lo
    · rcases long_op_copy_cases c src pos hist with he | ⟨d2, he⟩ | ⟨q, he⟩ <;>
        rw [he] at h
      · simp at h
      · exfalso
        rw [long_op_copy] at he
        simp [hg] at he
      · simp at h
    · have hlo : lo < 256 := hsrc lo (List.getElem?_mem hg)
      rw [long_op_copy_full c src pos hist lo hc hlo hg (le_of_eq hh.symm)] at h
      simp at h

theorem decodeLoop_isSome (stream : List Nat) (sp ss : Option Nat) :
    ∀ (fuel pos : Nat) (out hist : List Nat) (trace : List (Nat × Tag)),
      stream.length - pos ≤ fuel →
      (decodeLoop stream sp ss fuel pos out hist trace).isSome := by
  intro fuel
  induction fuel with
  | zero =>
    intro pos out hist trace hf
    have hnp : ¬ pos < stream.length := by omega
    simp [decodeLoop, hnp]
  | succ fuel ih =>
    intro pos out hist trace hf
    cases hs : stream[pos]? with
    | none => simp [decodeLoop, hs]
    | some c =>
      have hpos : pos < stream.length := by
        by_contra hnp
        rw [List.getElem?_eq_none_iff.mpr (by omega)] at hs
        cases hs
      simp only [decodeLoop, hs]
      split
      · simp
      · split
        · simp
        · split
          · simp
          · split
            · simp
            · rename_i nxt payload hist2 heq
              have hadv := (applyHandler_ok_shape _ _ _ _ _ _ _ heq).1
              exact ih nxt (out ++ payload) hist2 _ (by omega)
            · exact ih (pos+1) out hist _ (by omega)

theorem decodeLoop_no_ooh (stream : List Nat) (sp ss : Option Nat)
    (hsrc : ∀ b ∈ stream, b < 256) :
    ∀ (fuel pos : Nat) (out hist : List Nat) (trace : List (Nat × Tag)),
      hist.length = WIN → ∀ d hl,
      decodeLoop stream sp ss fuel pos out hist trace ≠
        some (.error (.outOfHistory d hl)) := by
  intro fuel
  induction fuel with
  | zero =>
    intro pos out hist trace hh d hl
    simp only [decodeLoop]
    split <;> simp
  | succ fuel ih =>
    intro pos out hist trace hh d hl
    cases hs : stream[pos]? with
    | none => simp [decodeLoop, hs]
    | some c =>
      have hc : c < 256 := hsrc c (List.getElem?_mem hs)
      simp only [decodeLoop, hs]
      split
      · simp
      · split
        · simp
        · split
          · simp
          · split
            · rename_i e heq
              intro hcontra
              simp only [Option.some.injEq, Except.error.injEq] at hcontra
              rw [hcontra] at heq
              exact applyHandler_no_ooh c stream pos hist hh hsrc hc d hl heq
            · rename_i nxt payload hist2 heq
              have hlen := (applyHandler_ok_shape _ _ _ _ _ _ _ heq).2 hh
              exact ih nxt (out ++ payload) hist2 _ hlen d hl
            · exact ih (pos+1) out hist _ hh d hl

theorem initHist_getD (i : Nat) : initHist.getD i 0 = 0 := by
  rw [List.getD_eq_getElem?_getD, initHist, List.getElem?_replicate]
  split <;> rfl

theorem initHist_getElem_getD (i : Nat) : (initHist[i]?).getD 0 = 0 := by
  rw [initHist, List.getElem?_replicate]
  split <;> rfl

theorem applyHandler_unassigned (c : Nat) (src : List Nat) (pos : Nat)
    (hist : List Nat) (h1 : 0x20 ≤ c) (h2 : c ≤ 0x3F) :
    applyHandler c src pos hist = none := by
  unfold applyHandler
  rw [if_neg (by omega), if_neg (by omega), if_neg (by omega),
    if_neg (by omega), if_neg (by omega), if_neg (by omega)]

theorem decodeLoop_step_term (stream : List Nat) (sp ss : Option Nat)
    (fuel pos : Nat) (out hist : List Nat) (trace : List (Nat × Tag))
    (hs : stream[pos]? = some 0) :
    decodeLoop stream sp ss (fuel+1) pos out hist trace =
      some (.ok (out, ((pos, Tag.term) :: trace).reverse)) := by
  simp [decodeLoop, hs]

theorem decodeLoop_step_op (stream : List Nat) (sp ss : Option Nat)
    (fuel pos : Nat) (out hist : List Nat) (trace : List (Nat × Tag))
    (c nxt : Nat) (payload hist2 : List Nat)
    (hs : stream[pos]? = some c) (hc : c ≠ 0)
    (hss : budgetReached ss pos = false)
    (hsp : budgetReached sp out.length = false)
    (hh : applyHandler c stream pos hist = some (.ok (nxt, payload, hist2))) :
    decodeLoop stream sp ss (fuel+1) pos out hist trace =
      decodeLoop stream sp ss fuel nxt (out ++ payload) hist2
        ((pos, Tag.op) :: trace) := by
  simp [decodeLoop, hs, hc, hss, hsp, hh]

theorem decodeLoop_step_unk (stream : List Nat) (sp ss : Option Nat)
    (fuel pos : Nat) (out hist : List Nat) (trace : List (Nat × Tag)) (c : Nat)
    (hs : stream[pos]? = some c) (h1 : 0x20 ≤ c) (h2 : c ≤ 0x3F)
    (hss : budgetReached ss pos = false)
    (hsp : budgetReached sp out.length = false) :
    decodeLoop stream sp ss (fuel+1) pos out hist trace =
      decodeLoop stream sp ss fuel (pos+1) out hist
        ((pos, Tag.unk) :: trace) := by
  have hc : c ≠ 0 := by omega
  simp [decodeLoop, hs, hc, hss, hsp,
    applyHandler_unassigned c stream pos hist h1 h2]

theorem decodeLoop_step_budget (stream : List Nat) (sp ss : Option Nat)
    (fuel pos : Nat) (out hist : List Nat) (trace : List (Nat × Tag))
    (hreach : budgetReached ss pos = true ∨
      budgetReached sp out.length = true) :
    ∃ tr, decodeLoop stream sp ss (fuel+1) pos out hist trace =
      some (.ok (out, tr)) := by
  cases hs : stream[pos]? with
  | none => exact ⟨trace.reverse, by simp [decodeLoop, hs]⟩
  | some c =>
    by_cases hc : c = 0
    · subst hc
      exact ⟨((pos, Tag.term) :: trace).reverse,
        decodeLoop_step_term stream sp ss fuel pos out hist trace hs⟩
    · cases hreach with
      | inl hr => exact ⟨trace.reverse, by simp [decodeLoop, hs, hc, hr]⟩
      | inr hr =>
        by_cases hr2 : budgetReached ss pos = true
        · exact ⟨trace.reverse, by simp [decodeLoop, hs, hc, hr2]⟩
        · exact ⟨trace.reverse, by
            simp [decodeLoop, hs, hc, hr,
              Bool.not_eq_true _ ▸ hr2]⟩

theorem decodeLoop_done (stream : List Nat) (sp ss : Option Nat)
    (fuel pos : Nat) (out hist : List Nat) (trace : List (Nat × Tag))
    (h : stream.length ≤ pos) :
    decodeLoop stream sp ss fuel pos out hist trace =
      some (.ok (out, trace.reverse)) := by
  cases fuel with
  | zero =>
    have hnp : ¬ pos < stream.length := by omega
    simp [decodeLoop, hnp]
  | succ fuel =>
    simp [decodeLoop, List.getElem?_eq_none_iff.mpr h]

theorem applyHandler_x80 :
    applyHandler 0x80 [0x80, 0x00] 0 initHist =
      some (.ok (1, [0, 0], histExtend initHist [0, 0])) := by
  have hd : applyHandler 0x80 [0x80, 0x00] 0 initHist =
      some (op_copy2 0x80 [0x80, 0x00] 0 initHist) := rfl
  rw [hd,
    op_copy2_full 0x80 [0x80, 0x00] 0 initHist (le_of_eq initHist_length.symm)]
  simp [List.range_succ, initHist_getD, initHist_getElem_getD]

theorem decode_x80_eval :
    decode [0x80, 0x00] none none =
      some (.ok ([0x00, 0x00], [(0, Tag.op), (1, Tag.term)])) := by
  show decodeLoop [0x80, 0x00] none none 2 0 [] initHist [] = _
  rw [show (2 : Nat) = 1 + 1 from rfl,
    decodeLoop_step_op [0x80, 0x00] none none 1 0 [] initHist [] 0x80 1
      [0, 0] (histExtend initHist [0, 0]) rfl (by omega) rfl rfl
      applyHandler_x80,
    show (1 : Nat) = 0 + 1 from rfl,
    decodeLoop_step_term [0x80, 0x00] none none 0 1 ([] ++ [0, 0])
      (histExtend initHist [0, 0]) [(0, Tag.op)] rfl]
  simp

theorem decodeLoop_budget_congr (stream : List Nat) (sp ss sp2 ss2 : Option Nat)
    (hsp : ∀ v, budgetReached sp v = budgetReached sp2 v)
    (hss : ∀ v, budgetReached ss v = budgetReached ss2 v) :
    ∀ (fuel pos : Nat) (out hist : List Nat) (trace : List (Nat × Tag)),
      decodeLoop stream sp ss fuel pos out hist trace =
        decodeLoop stream sp2 ss2 fuel pos out hist trace := by
  intro fuel
  induction fuel with
  | zero => intro pos out hist trace; rfl
  | succ fuel ih =>
    intro pos out hist trace
    cases hs : stream[pos]? with
    | none => simp [decodeLoop, hs]
    | some c =>
      simp only [decodeLoop, hs, hsp, hss]
      by_cases hc : c = 0
      · simp [hc]
      · simp only [if_neg hc]
        by_cases h1 : budgetReached ss2 pos = true
        · simp [h1]
        · simp only [Bool.not_eq_true] at h1
          simp only [h1, Bool.false_eq_true, if_false]
          by_cases h2 : budgetReached sp2 out.length = true
          · simp [h2]
          · simp only [Bool.not_eq_true] at h2
            simp only [h2, Bool.false_eq_true, if_false]
            split
            · rfl
            · exact ih _ _ _ _
            · exact ih _ _ _ _

end DriverLemmas

theorem op_copy2_ooh_iff (c : Nat) (src : List Nat) (pos : Nat)
    (hist : List Nat) :
    op_copy2 c src pos hist =
        .error (.outOfHistory ((c &&& 0x1F) + COPY_2_BIAS) hist.length) ↔
      hist.length < (c &&& 0x1F) + COPY_2_BIAS := by
  constructor
  · intro h
    by_contra hn
    rw [op_copy2, if_neg hn] at h
    split at h <;> simp_all
  · intro h
    rw [op_copy2, if_pos h]

theorem op_copy3_ooh_iff (c : Nat) (src : List Nat) (pos : Nat)
    (hist : List Nat) :
    op_copy3 c src pos hist =
        .error (.outOfHistory ((c &&& 0x1F) + COPY_3_BIAS) hist.length) ↔
      hist.length < (c &&& 0x1F) + COPY_3_BIAS := by
  constructor
  · intro h
    by_contra hn
    rw [op_copy3, if_neg hn] at h
    split at h <;> simp_all
  · intro h
    rw [op_copy3, if_pos h]

theorem long_op_copy_ooh_iff (c lo : Nat) (src : List Nat) (pos : Nat)
    (hist : List Nat) (hget : src[pos+1]? = some lo) :
    long_op_copy c src pos hist =
        .error (.outOfHistory (longOffset c lo + longLength c)
          hist.length) ↔
      hist.length < longOffset c lo + longLength c := by
  constructor
  · intro h
    by_contra hn
    simp only [long_op_copy, hget] at h
    rw [if_neg hn] at h
    split at h <;> simp_all
  · intro h
    simp only [long_op_copy, hget]
    rw [if_pos h]

section Claims

/-- C6: for every command byte n in 0x01-0x1F followed by at least n bytes
of input, the literal opcode yields exactly those n following bytes,
verbatim and in order, as the payload and advances the input position by
n+1; concretely, [0x03, 0x10, 0x20, 0x30, 0x00] decodes to
[0x10, 0x20, 0x30]. -/
theorem claim_literal_contract (c : Nat) (src : List Nat) (pos : Nat)
    (hist : List Nat) (h1 : 0x01 ≤ c) (h2 : c ≤ 0x1F)
    (h3 : pos + 1 + c ≤ src.length) :
    (∃ hist2, op_literal c src pos hist =
      .ok (pos + 1 + c, (src.drop (pos+1)).take c, hist2)) ∧
    ((src.drop (pos+1)).take c).length = c ∧
    decode [0x03, 0x10, 0x20, 0x30, 0x00] none none =
      some (.ok ([0x10, 0x20, 0x30], [(0, Tag.op), (4, Tag.term)])) := by
  refine ⟨⟨_, rfl⟩, ?_, by rfl⟩
  rw [List.length_take, List.length_drop]
  omega

theorem claim_literal_contract_witness :
    (∃ hist2, op_literal 2 [0x02, 0x07, 0x08] 0 [] =
      .ok (0 + 1 + 2, ([0x02, 0x07, 0x08].drop 1).take 2, hist2)) ∧
    (([0x02, 0x07, 0x08].drop 1).take 2).length = 2 ∧
    decode [0x03, 0x10, 0x20, 0x30, 0x00] none none =
      some (.ok ([0x10, 0x20, 0x30], [(0, Tag.op), (4, Tag.term)])) :=
  claim_literal_contract 2 [0x02, 0x07, 0x08] 0 [] (by decide) (by decide)
    (by decide)

/-- C7: for every command byte in 0x40-0x5F followed by a value byte v,
the short-repeat opcode produces (cmd AND 0x3F) + 3 repetitions of v and
advances the position by 2; concretely, [0x41, 0x05, 0x00] decodes to
[0x05, 0x05, 0x05, 0x05]. -/
theorem claim_short_repeat_contract (c : Nat) (src : List Nat) (pos : Nat)
    (hist : List Nat) (val : Nat) (h1 : 0x40 ≤ c) (h2 : c ≤ 0x5F)
    (hv : src[pos+1]? = some val) :
    (∃ hist2, op_short_repeat_literal c src pos hist =
      .ok (pos + 2, List.replicate ((c &&& 0x3F) + 3) val, hist2)) ∧
    decode [0x41, 0x05, 0x00] none none =
      some (.ok ([0x05, 0x05, 0x05, 0x05], [(0, Tag.op), (2, Tag.term)])) := by
  refine ⟨⟨histExtend hist (List.replicate ((c &&& 0x3F) + 3) val), ?_⟩,
    by rfl⟩
  rw [op_short_repeat_literal]
  simp only [hv]
  rfl

theorem claim_short_repeat_contract_witness :
    (∃ hist2, op_short_repeat_literal 0x41 [0x41, 0x05] 0 [] =
      .ok (0 + 2, List.replicate ((0x41 &&& 0x3F) + 3) 0x05, hist2)) ∧
    decode [0x41, 0x05, 0x00] none none =
      some (.ok ([0x05, 0x05, 0x05, 0x05], [(0, Tag.op), (2, Tag.term)])) :=
  claim_short_repeat_contract 0x41 [0x41, 0x05] 0 [] 0x05 (by decide)
    (by decide) (by decide)

/-- C5: every long-copy command byte (0xC0-0xFF) consumes exactly one
extra byte, has payload length 4*group + 4 + extra in 4-19, with
group = (cmd shr 4) - 0xC and extra = (cmd shr 2) AND 0x3, and reads its
payload from history at back-reference distance offset + length, where
offset = ((cmd AND 0x3) shl 8) OR byte1 lies in 0-1023. -/
theorem claim_long_copy_contract (c lo : Nat) (src : List Nat) (pos : Nat)
    (hist : List Nat) (h1 : 0xC0 ≤ c) (h2 : c ≤ 0xFF) (hlo : lo < 256)
    (hget : src[pos+1]? = some lo) :
    longLength c = 4 * ((c >>> 4) - 0xC) + 4 + ((c >>> 2) &&& 0x3) ∧
    (4 ≤ longLength c ∧ longLength c ≤ 19) ∧
    longOffset c lo = ((c &&& 0x3) <<< 8) ||| lo ∧
    longOffset c lo ≤ 1023 ∧
    (WIN ≤ hist.length →
      ∃ payload,
        copyPayload hist (longOffset c lo + longLength c) (longLength c) =
          some payload ∧
        long_op_copy c src pos hist =
          .ok (pos + 2, payload, histExtend hist payload)) := by
  have hc : c < 256 := by omega
  refine ⟨rfl, ⟨longLength_ge c, longLength_le c hc⟩, rfl,
    longOffset_le c lo hlo, fun hh => ?_⟩
  refine ⟨_, copyPayload_eq_some hist _ _ (by omega) ?_, ?_⟩
  · have hb1 := longOffset_le c lo hlo
    have hb2 := longLength_le c hc
    simp only [WIN] at hh
    omega
  · rw [long_op_copy_full c src pos hist lo hc hlo hget hh]

theorem claim_long_copy_contract_witness :
    longLength 0xC0 = 4 * ((0xC0 >>> 4) - 0xC) + 4 + ((0xC0 >>> 2) &&& 0x3) ∧
    (4 ≤ longLength 0xC0 ∧ longLength 0xC0 ≤ 19) ∧
    longOffset 0xC0 0 = ((0xC0 &&& 0x3) <<< 8) ||| 0 ∧
    longOffset 0xC0 0 ≤ 1023 ∧
    (WIN ≤ initHist.length →
      ∃ payload,
        copyPayload initHist (longOffset 0xC0 0 + longLength 0xC0)
          (longLength 0xC0) = some payload ∧
        long_op_copy 0xC0 [0xC0, 0x00] 0 initHist =
          .ok (0 + 2, payload, histExtend initHist payload)) :=
  claim_long_copy_contract 0xC0 0 [0xC0, 0x00] 0 initHist (by decide)
    (by decide) (by decide) (by decide)

/-- C4: for every reachable (distance, length) pair of the three copy
families, the implemented batch copy computed from a single pre-operation
snapshot of the history produces exactly the same payload as the
byte-at-a-time reference semantics, in which each produced byte is pushed
into history before the next byte is read so later bytes of the same
opcode can observe earlier ones. -/
theorem claim_copy_batch_eq_byte_at_a_time (hist : List Nat)
    (hW : hist.length = WIN) :
    (∀ c, 0x80 ≤ c → c ≤ 0x9F →
      copyPayload hist ((c &&& 0x1F) + COPY_2_BIAS) 2 =
        specByteAtATimeCopy hist ((c &&& 0x1F) + COPY_2_BIAS) 2) ∧
    (∀ c, 0xA0 ≤ c → c ≤ 0xBF →
      copyPayload hist ((c &&& 0x1F) + COPY_3_BIAS) 3 =
        specByteAtATimeCopy hist ((c &&& 0x1F) + COPY_3_BIAS) 3) ∧
    (∀ c lo, 0xC0 ≤ c → c ≤ 0xFF → lo < 256 →
      copyPayload hist (longOffset c lo + longLength c) (longLength c) =
        specByteAtATimeCopy hist (longOffset c lo + longLength c)
          (longLength c)) := by
  refine ⟨fun c _ _ => ?_, fun c _ _ => ?_, fun c lo h1 h2 hlo => ?_⟩
  · refine copy_batch_eq_spec hist _ 2 (by unfold COPY_2_BIAS; omega) ?_
      (le_of_eq hW)
    have := copy2_dist_le c
    rw [hW]
    unfold WIN
    omega
  · refine copy_batch_eq_spec hist _ 3 (by unfold COPY_3_BIAS; omega) ?_
      (le_of_eq hW)
    have := copy3_dist_le c
    rw [hW]
    unfold WIN
    omega
  · refine copy_batch_eq_spec hist _ (longLength c) (by omega) ?_
      (le_of_eq hW)
    have hb1 := longOffset_le c lo hlo
    have hb2 := longLength_le c (by omega)
    rw [hW]
    unfold WIN
    omega

theorem claim_copy_batch_eq_byte_at_a_time_witness :
    copyPayload initHist ((0x80 &&& 0x1F) + COPY_2_BIAS) 2 =
      specByteAtATimeCopy initHist ((0x80 &&& 0x1F) + COPY_2_BIAS) 2 :=
  (claim_copy_batch_eq_byte_at_a_time initHist (by simp [initHist])).1 0x80
    (by decide) (by decide)

/-- C9: the history window already holds exactly 4096 zero bytes at the
start of every decode call, the largest encodable back-reference distance
of any copy opcode is at most 1042, the insufficient-history error
branches are unreachable for every byte stream, and a copy opcode run
before any output has been produced succeeds with zero bytes:
decode [0x80, 0x00] returns [0x00, 0x00] with no error. -/
theorem claim_out_of_history_unreachable :
    initHist = List.replicate WIN 0 ∧
    (∀ c lo, c < 256 → lo < 256 →
      (c &&& 0x1F) + COPY_2_BIAS ≤ 1042 ∧
      (c &&& 0x1F) + COPY_3_BIAS ≤ 1042 ∧
      longOffset c lo + longLength c ≤ 1042) ∧
    (∀ (stream : List Nat) (sp ss : Option Nat), (∀ b ∈ stream, b < 256) →
      ∀ d hl, decode stream sp ss ≠ some (.error (.outOfHistory d hl))) ∧
    decode [0x80, 0x00] none none =
      some (.ok ([0x00, 0x00], [(0, Tag.op), (1, Tag.term)])) := by
  refine ⟨rfl, fun c lo hc hlo => ⟨?_, ?_, ?_⟩,
    fun stream sp ss hsrc d hl => ?_, decode_x80_eval⟩
  · have := copy2_dist_le c
    omega
  · have := copy3_dist_le c
    omega
  · have hb1 := longOffset_le c lo hlo
    have hb2 := longLength_le c hc
    omega
  · exact decodeLoop_no_ooh stream sp ss hsrc stream.length 0 [] initHist []
      initHist_length d hl

theorem claim_out_of_history_unreachable_witness :
    decode [0x80, 0x00] none none ≠ some (.error (.outOfHistory 2 0)) :=
  claim_out_of_history_unreachable.2.2.1 [0x80, 0x00] none none
    (by decide) 2 0

/-- C10: decode terminates on every finite input stream: every successful
opcode application advances the input position by at least one byte (as
does the unrecognized-byte branch), so the loop, given fuel equal to the
stream length, always returns a result instead of running out. -/
theorem claim_decode_terminates :
    (∀ (c : Nat) (src : List Nat) (pos : Nat) (hist : List Nat)
      (nxt : Nat) (payload hist2 : List Nat),
      applyHandler c src pos hist = some (.ok (nxt, payload, hist2)) →
      pos + 1 ≤ nxt) ∧
    (∀ (stream : List Nat) (sp ss : Option Nat),
      (decode stream sp ss).isSome = true) := by
  constructor
  · intro c src pos hist nxt payload hist2 h
    have := (applyHandler_ok_shape c src pos hist nxt payload hist2 h).1
    omega
  · intro stream sp ss
    exact decodeLoop_isSome stream sp ss stream.length 0 [] initHist []
      (by omega)

theorem claim_decode_terminates_witness :
    (0 + 1 ≤ 2) ∧ (decode [0x03, 0x10] none none).isSome = true :=
  ⟨claim_decode_terminates.1 1 [0x01, 0x05] 0 [] 2 [0x05]
      (histExtend [] [0x05]) (by rfl),
    claim_decode_terminates.2 [0x03, 0x10] none none⟩

/-- C1 counterexample: a Copy-2 opcode whose back-reference distance (2)
exceeds the number of bytes produced so far in the call (0) does not
abort with an out-of-history error; decode succeeds and returns two zero
bytes read from the pre-filled window. -/
theorem claim_out_of_history_counterexample :
    decode [0x80, 0x00] none none =
      some (.ok ([0x00, 0x00], [(0, Tag.op), (1, Tag.term)])) ∧
    decode [0x80, 0x00] none none ≠ some (.error (.outOfHistory 2 0)) := by
  refine ⟨decode_x80_eval, ?_⟩
  rw [decode_x80_eval]
  simp

/-- C1 amended: each copy opcode aborts with an OutOfHistory error (the
distance is never clamped) exactly when its distance exceeds the length
of the history buffer — which decode pre-fills to 4096 zero bytes — not
the number of bytes produced so far in the decode call. -/
theorem claim_out_of_history_iff (c lo : Nat) (src : List Nat) (pos : Nat)
    (hist : List Nat) (hget : src[pos+1]? = some lo) :
    (op_copy2 c src pos hist =
        .error (.outOfHistory ((c &&& 0x1F) + COPY_2_BIAS) hist.length) ↔
      hist.length < (c &&& 0x1F) + COPY_2_BIAS) ∧
    (op_copy3 c src pos hist =
        .error (.outOfHistory ((c &&& 0x1F) + COPY_3_BIAS) hist.length) ↔
      hist.length < (c &&& 0x1F) + COPY_3_BIAS) ∧
    (long_op_copy c src pos hist =
        .error (.outOfHistory (longOffset c lo + longLength c)
          hist.length) ↔
      hist.length < longOffset c lo + longLength c) :=
  ⟨op_copy2_ooh_iff c src pos hist, op_copy3_ooh_iff c src pos hist,
    long_op_copy_ooh_iff c lo src pos hist hget⟩

theorem claim_out_of_history_iff_witness :
    (op_copy2 0x80 [0x80, 0x00] 0 [] =
        .error (.outOfHistory ((0x80 &&& 0x1F) + COPY_2_BIAS)
          ([] : List Nat).length) ↔
      ([] : List Nat).length < (0x80 &&& 0x1F) + COPY_2_BIAS) ∧
    (op_copy3 0x80 [0x80, 0x00] 0 [] =
        .error (.outOfHistory ((0x80 &&& 0x1F) + COPY_3_BIAS)
          ([] : List Nat).length) ↔
      ([] : List Nat).length < (0x80 &&& 0x1F) + COPY_3_BIAS) ∧
    (long_op_copy 0x80 [0x80, 0x00] 0 [] =
        .error (.outOfHistory (longOffset 0x80 0 + longLength 0x80)
          ([] : List Nat).length) ↔
      ([] : List Nat).length < longOffset 0x80 0 + longLength 0x80) :=
  claim_out_of_history_iff 0x80 0 [0x80, 0x00] 0 [] (by decide)

/-- C2 counterexample: the unassigned command byte 0x20 does not halt
decoding with a fatal error; it is recorded as an unknown byte, skipped,
and decoding continues, producing output from the opcode after it. -/
theorem claim_unknown_opcode_counterexample :
    decode [0x20, 0x01, 0xAA, 0x00] none none =
      some (.ok ([0xAA], [(0, Tag.unk), (1, Tag.op), (3, Tag.term)])) := by
  rfl

/-- C2 amended: a command byte in the unassigned range 0x20-0x3F matches
no handler; the driver records an unknown-byte trace entry carrying its
stream offset, advances the position by one, and keeps decoding — no
error is raised and no output is produced for that byte. -/
theorem claim_unknown_opcode_skipped (stream : List Nat)
    (sp ss : Option Nat) (fuel pos : Nat) (out hist : List Nat)
    (trace : List (Nat × Tag)) (c : Nat)
    (hs : stream[pos]? = some c) (h1 : 0x20 ≤ c) (h2 : c ≤ 0x3F)
    (hss : budgetReached ss pos = false)
    (hsp : budgetReached sp out.length = false) :
    applyHandler c stream pos hist = none ∧
    decodeLoop stream sp ss (fuel+1) pos out hist trace =
      decodeLoop stream sp ss fuel (pos+1) out hist
        ((pos, Tag.unk) :: trace) :=
  ⟨applyHandler_unassigned c stream pos hist h1 h2,
    decodeLoop_step_unk stream sp ss fuel pos out hist trace c hs h1 h2
      hss hsp⟩

theorem claim_unknown_opcode_skipped_witness :
    applyHandler 0x20 [0x20, 0x00] 0 initHist = none ∧
    decodeLoop [0x20, 0x00] none none 2 0 [] initHist [] =
      decodeLoop [0x20, 0x00] none none 1 1 [] initHist [(0, Tag.unk)] :=
  claim_unknown_opcode_skipped [0x20, 0x00] none none 1 0 [] initHist []
    0x20 (by decide) (by decide) (by decide) (by decide) (by decide)

/-- C3 counterexample: the literal opcode 0x03 with only one byte left in
the stream performs a silent short read: decode succeeds and returns the
truncated payload instead of failing with a truncation error. -/
theorem claim_truncated_stream_counterexample :
    decode [0x03, 0x10] none none =
      some (.ok ([0x10], [(0, Tag.op)])) := by
  rfl

/-- C3 amended: a stream ending mid-opcode is not reported as a
truncation error carrying an offset: a literal whose declared length
exceeds the remaining input silently returns exactly the remaining bytes
and decode succeeds, while an opcode that reads a fixed extra byte past
the end of the input aborts with a bare IndexError. -/
theorem claim_truncated_stream_behavior :
    (∀ (c : Nat) (rest : List Nat), 0x01 ≤ c → c ≤ 0x1F →
      rest.length < c →
      decode (c :: rest) none none =
        some (.ok (rest, [(0, Tag.op)]))) ∧
    (∀ c, 0x40 ≤ c → c ≤ 0x5F →
      decode [c] none none = some (.error .indexError)) := by
  constructor
  · intro c rest h1 h2 h3
    have hh : applyHandler c (c :: rest) 0 initHist =
        some (.ok (0 + 1 + c, rest, histExtend initHist rest)) := by
      unfold applyHandler
      rw [if_pos ⟨h1, h2⟩, op_literal_eq]
      simp [List.take_of_length_le (le_of_lt h3)]
    show decodeLoop (c :: rest) none none (c :: rest).length 0 [] initHist
      [] = _
    rw [show (c :: rest).length = rest.length + 1 from rfl,
      decodeLoop_step_op (c :: rest) none none rest.length 0 [] initHist []
        c (0 + 1 + c) rest (histExtend initHist rest) (by simp) (by omega)
        rfl rfl hh,
      decodeLoop_done _ _ _ _ _ _ _ _ (by simp; omega)]
    simp
  · intro c h1 h2
    have hh : applyHandler c [c] 0 initHist =
        some (.error .indexError) := by
      unfold applyHandler
      rw [if_neg (by omega), if_pos ⟨h1, h2⟩]
      rfl
    show decodeLoop [c] none none 1 0 [] initHist [] = _
    simp [decodeLoop, hh, budgetReached, show ¬(c = 0) by omega]

theorem claim_truncated_stream_behavior_witness :
    decode [0x03, 0x10] none none =
      some (.ok ([0x10], [(0, Tag.op)])) ∧
    decode [0x41] none none = some (.error .indexError) :=
  ⟨claim_truncated_stream_behavior.1 3 [0x10] (by decide) (by decide)
      (by decide),
    claim_truncated_stream_behavior.2 0x41 (by decide) (by decide)⟩

/-- C8 counterexample: an output budget of 0 does not halt decoding
immediately with empty output — a 0 budget is falsy in the source and is
treated as if no budget were given, so the literal opcode still runs. -/
theorem claim_budget_counterexample :
    decode [0x01, 0xAA, 0x00] (some 0) none =
      some (.ok ([0xAA], [(0, Tag.op), (2, Tag.term)])) ∧
    ([0xAA] : List Nat) ≠ [] :=
  ⟨by rfl, by simp⟩

/-- C8 amended: at any step of the driver at which a positive budget has
been reached — the input position at least the input budget, or the
accumulated output length at least the output budget — the driver halts
and returns the accumulated output as a success; a budget of 0, like
None, is falsy in the source and disables that budget entirely. -/
theorem claim_budget_halt (stream : List Nat) (sp ss : Option Nat)
    (fuel pos : Nat) (out hist : List Nat) (trace : List (Nat × Tag)) :
    ((∃ n, ss = some n ∧ 0 < n ∧ n ≤ pos) ∨
        (∃ n, sp = some n ∧ 0 < n ∧ n ≤ out.length) →
      ∃ tr, decodeLoop stream sp ss (fuel+1) pos out hist trace =
        some (.ok (out, tr))) ∧
    decodeLoop stream (some 0) (some 0) fuel pos out hist trace =
      decodeLoop stream none none fuel pos out hist trace := by
  constructor
  · intro h
    apply decodeLoop_step_budget
    rcases h with ⟨n, hn, hp, hle⟩ | ⟨n, hn, hp, hle⟩
    · left
      subst hn
      simp only [budgetReached, Bool.and_eq_true, decide_eq_true_eq]
      omega
    · right
      subst hn
      simp only [budgetReached, Bool.and_eq_true, decide_eq_true_eq]
      omega
  · exact decodeLoop_budget_congr stream (some 0) (some 0) none none
      (fun v => by simp [budgetReached]) (fun v => by simp [budgetReached])
      fuel pos out hist trace

theorem claim_budget_halt_witness :
    (∃ tr, decodeLoop [0x01, 0xAA] none (some 1) 1 1 [0xAA] initHist [] =
      some (.ok ([0xAA], tr))) ∧
    decodeLoop [0x01, 0xAA] (some 0) (some 0) 2 0 [] initHist [] =
      decodeLoop [0x01, 0xAA] none none 2 0 [] initHist [] :=
  ⟨(claim_budget_halt [0x01, 0xAA] none (some 1) 0 1 [0xAA] initHist []).1
      (Or.inl ⟨1, rfl, by omega, by omega⟩),
    (claim_budget_halt [0x01, 0xAA] (some 0) (some 0) 2 0 [] initHist
      []).2⟩

end Claims

end GndDecode
